import Mathlib

/-!
# Shallow embedding of the SgEcs entity-component manager

This file embeds the core of `src/Ecs.hpp` and `src/Util.hpp` (repository
`stwe/SgEcs`) in Lean and proves properties of the embedded operations.

Modelling conventions:
* `std::bitset<N>` is modelled as a `List Bool` (conceptually of length `N`,
  the number of declared component kinds `nc`).
* A component kind is identified by its id (`Settings::GetComponentId`), a
  `Nat` below `nc`; a signature is the list of its kinds' ids in declared
  order.
* `ComponentStorage` (one `std::vector` per kind, stored in a tuple) is
  modelled as `store : List (List V)` with one inner list per kind id, where
  `V` is the component payload type.
* `std::vector::resize` keeps the existing prefix and pads with
  default-constructed values (`listResize`).
* Entity indices/handles are `Nat`; out-of-range accesses (which the C++
  asserts exclude) read default values via `List.getD`, and theorems carry
  the corresponding bounds hypotheses.
-/

set_option linter.unusedSectionVars false

namespace SgEcs

/-- `DEFAULT_ENTITY_CAPACITY` from `Ecs.hpp`. -/
def DEFAULT_ENTITY_CAPACITY : Nat := 100

/-- Entity metadata (`sg::ecs::Entity`): storage slot (`dataIndex`),
component mask (`bitset`) and liveness flag (`alive`). -/
structure Entity where
  dataIndex : Nat
  bitset : List Bool
  alive : Bool
deriving Repr, DecidableEq, Inhabited

/-- Manager state (`sg::ecs::Manager`): the entity table `m_entities`, its
`m_capacity`, the live count `m_size`, the pending count `m_sizeNext`, and the
component storage `m_componentStorage` (one vector per component kind). -/
structure Manager (V : Type) where
  entities : List Entity
  capacity : Nat
  size : Nat
  sizeNext : Nat
  store : List (List V)
deriving Repr, DecidableEq

variable {V : Type} [Inhabited V]

/-- `std::vector::resize(n)`: keep the first `n` existing elements, pad with
default-constructed values up to length `n`. -/
def listResize {α : Type} [Inhabited α] (l : List α) (n : Nat) : List α :=
  l.take n ++ List.replicate (n - l.length) default

/-- `Manager::GetEntity`: read the entity record at an index. -/
def Manager.GetEntity (m : Manager V) (i : Nat) : Entity :=
  m.entities.getD i default

/-- `Manager::GrowTo(newCapacity)`: resize the entity vector and every
component vector, then initialize the fresh records (positions from the old
capacity up) to `{dataIndex := i, bitset := all-zero, alive := false}`.
`nc` is the declared component-kind count. -/
def Manager.GrowTo (nc : Nat) (m : Manager V) (newCapacity : Nat) : Manager V :=
  { m with
    entities := (listResize m.entities newCapacity).mapIdx fun i e =>
      if m.capacity ≤ i then
        { dataIndex := i, bitset := List.replicate nc false, alive := false }
      else e
    capacity := newCapacity
    store := m.store.map fun v => listResize v newCapacity }

/-- `Manager::GrowIfNeeded`: grow to `(m_capacity + 10) * 2` unless
`m_capacity > m_sizeNext`. -/
def Manager.GrowIfNeeded (nc : Nat) (m : Manager V) : Manager V :=
  if m.capacity > m.sizeNext then m
  else Manager.GrowTo nc m ((m.capacity + 10) * 2)

/-- `Manager::IsAlive`. -/
def Manager.IsAlive (m : Manager V) (i : Nat) : Bool :=
  (m.GetEntity i).alive

/-- `Manager::Kill`: clear the alive flag. -/
def Manager.Kill (m : Manager V) (i : Nat) : Manager V :=
  { m with entities := m.entities.set i { m.GetEntity i with alive := false } }

/-- `Manager::CreateIndex`: grow if needed, take `m_sizeNext` as the free
index, activate that record (alive, mask reset) and return the index together
with the new state. -/
def Manager.CreateIndex (nc : Nat) (m : Manager V) : Nat × Manager V :=
  ((Manager.GrowIfNeeded nc m).sizeNext,
    { Manager.GrowIfNeeded nc m with
      sizeNext := (Manager.GrowIfNeeded nc m).sizeNext + 1
      entities := (Manager.GrowIfNeeded nc m).entities.set (Manager.GrowIfNeeded nc m).sizeNext
        { Manager.GetEntity (Manager.GrowIfNeeded nc m) (Manager.GrowIfNeeded nc m).sizeNext with
          alive := true
          bitset := (Manager.GetEntity (Manager.GrowIfNeeded nc m)
            (Manager.GrowIfNeeded nc m).sizeNext).bitset.map fun _ => false } })

/-- `Manager::Clear`: reset every record in `[0, m_capacity)` to
`{dataIndex := i, mask reset, alive := false}` and zero both counts. -/
def Manager.Clear (m : Manager V) : Manager V :=
  { m with
    entities := m.entities.mapIdx fun i e =>
      if i < m.capacity then
        { dataIndex := i, bitset := e.bitset.map fun _ => false, alive := false }
      else e
    size := 0
    sizeNext := 0 }

/-- Inner forward scan of `ArrangeAliveEntitiesToLeft`: starting at `iD`,
return the current index as soon as it exceeds `iA` (whole-algorithm return
case) or points at a dead record. -/
def findDead (es : List Entity) (iA iD : Nat) : Nat :=
  if iA < iD then iD
  else if (es.getD iD default).alive then findDead es iA (iD + 1)
  else iD
termination_by iA + 1 - iD
decreasing_by omega

/-- Inner backward scan of `ArrangeAliveEntitiesToLeft`: starting at `iA`,
return the current index as soon as it points at an alive record, or return
`iD` once the scan reaches it (whole-algorithm return case). -/
def findAlive (es : List Entity) (iD iA : Nat) : Nat :=
  if (es.getD iA default).alive then iA
  else if iA ≤ iD then iD
  else findAlive es iD (iA - 1)
termination_by iA
decreasing_by omega

theorem findDead_ge (es : List Entity) (iA iD : Nat) : iD ≤ findDead es iA iD := by
  refine findDead.induct es iA (fun j => j ≤ findDead es iA j) ?_ ?_ ?_ iD
  · intro x hx
    rw [findDead, if_pos hx]
  · intro x hx ha ih
    rw [findDead, if_neg hx, if_pos ha]
    omega
  · intro x hx ha
    rw [findDead, if_neg hx, if_neg ha]

theorem findAlive_le (es : List Entity) (iD iA : Nat) (h : iD ≤ iA) :
    findAlive es iD iA ≤ iA := by
  refine findAlive.induct es iD (fun j => iD ≤ j → findAlive es iD j ≤ j) ?_ ?_ ?_ iA h
  · intro x hx h2
    rw [findAlive, if_pos hx]
  · intro x hx hle h2
    rw [findAlive, if_neg hx, if_pos hle]
    exact h2
  · intro x hx hgt ih h2
    rw [findAlive, if_neg hx, if_neg hgt]
    have := ih (by omega)
    omega

/-- `Manager::ArrangeAliveEntitiesToLeft`, main loop. Returns the table after
the swaps, the value returned by the C++ function (the new live count) and
the number of `std::swap` calls performed. -/
def arrangeLoop (es : List Entity) (iD iA swaps : Nat) : List Entity × Nat × Nat :=
  if iA < findDead es iA iD then (es, findDead es iA iD, swaps)
  else if (es.getD (findAlive es (findDead es iA iD) iA) default).alive then
    arrangeLoop
      ((es.set (findDead es iA iD)
          (es.getD (findAlive es (findDead es iA iD) iA) default)).set
        (findAlive es (findDead es iA iD) iA)
        (es.getD (findDead es iA iD) default))
      (findDead es iA iD + 1) (findAlive es (findDead es iA iD) iA - 1) (swaps + 1)
  else (es, findDead es iA iD, swaps)
termination_by iA + 1 - iD
decreasing_by
  have h1 := findDead_ge es iA iD
  have h2 := findAlive_le es (findDead es iA iD) iA (by omega)
  omega

/-- `Manager::ArrangeAliveEntitiesToLeft`: run the two-pointer partition over
`[0, m_sizeNext)` (the caller guarantees `m_sizeNext ≥ 1`). -/
def Manager.ArrangeAliveEntitiesToLeft (m : Manager V) : List Entity × Nat × Nat :=
  arrangeLoop m.entities 0 (m.sizeNext - 1) 0

/-- `Manager::Refresh`: zero the live count if the pending count is zero,
otherwise partition and set both counts to the partition point. -/
def Manager.Refresh (m : Manager V) : Manager V :=
  if m.sizeNext = 0 then { m with size := 0 }
  else
    { m with
      entities := (Manager.ArrangeAliveEntitiesToLeft m).1
      size := (Manager.ArrangeAliveEntitiesToLeft m).2.1
      sizeNext := (Manager.ArrangeAliveEntitiesToLeft m).2.1 }

/-- Number of record swaps a `Refresh` call performs. -/
def Manager.RefreshSwapCount (m : Manager V) : Nat :=
  if m.sizeNext = 0 then 0 else (Manager.ArrangeAliveEntitiesToLeft m).2.2

/-- `ComponentStorage::GetComponent`: read kind `k`'s vector at a slot. -/
def componentStorageGetComponent (store : List (List V)) (k slot : Nat) : V :=
  (store.getD k []).getD slot default

/-- `Manager::AddComponent`: set the entity's mask bit for kind `k` and
construct the payload `v` in place at the entity's slot. -/
def Manager.AddComponent (m : Manager V) (k i : Nat) (v : V) : Manager V :=
  { m with
    entities := m.entities.set i
      { Manager.GetEntity m i with bitset := (Manager.GetEntity m i).bitset.set k true }
    store := m.store.set k ((m.store.getD k []).set (Manager.GetEntity m i).dataIndex v) }

/-- `Manager::HasComponent`: read the entity's mask bit for kind `k`. -/
def Manager.HasComponent (m : Manager V) (k i : Nat) : Bool :=
  (m.GetEntity i).bitset.getD k false

/-- `Manager::DeleteComponent`: clear the entity's mask bit for kind `k`. -/
def Manager.DeleteComponent (m : Manager V) (k i : Nat) : Manager V :=
  { m with
    entities := m.entities.set i
      { Manager.GetEntity m i with bitset := (Manager.GetEntity m i).bitset.set k false } }

/-- `Manager::GetComponent`: read the payload of kind `k` at the entity's slot. -/
def Manager.GetComponent (m : Manager V) (k i : Nat) : V :=
  componentStorageGetComponent m.store k (m.GetEntity i).dataIndex

/-- `SignatureBitsetsStorage::InitSignatureBitset`: the signature's bit
vector, obtained by setting the bit of every kind in the signature's declared
kind list, starting from the all-zero bitset of width `nc`. -/
def initSignatureBitset (nc : Nat) (sig : List Nat) : List Bool :=
  sig.foldl (fun bs k => bs.set k true) (List.replicate nc false)

/-- `operator&` on two bitsets. -/
def bitsetAnd (a b : List Bool) : List Bool :=
  List.zipWith (fun x y => x && y) a b

/-- `Manager::MatchesSignature`: `(signatureBitset & entityBitset) == signatureBitset`. -/
def Manager.MatchesSignature (nc : Nat) (m : Manager V) (sig : List Nat) (i : Nat) : Bool :=
  bitsetAnd (initSignatureBitset nc sig) (m.GetEntity i).bitset == initSignatureBitset nc sig

/-- `Rename` from `Util.hpp`: `boost::mpl::fold` over the type list starting
from the empty pack, where `AddTo<TNewName<Ts...>, T>` yields
`TNewName<T, Ts...>` — each element is prepended to the accumulated pack. -/
def renameFold (sig : List Nat) : List Nat :=
  sig.foldl (fun acc k => k :: acc) []

/-- `Manager::ExpandCallHelper<TComponents...>::Call`: the component values
forwarded to the callable after the entity index, one per kind in the
helper's pack, each read at the entity's `dataIndex`. -/
def Manager.ExpandCallHelperArgs (m : Manager V) (pack : List Nat) (i : Nat) : List V :=
  pack.map fun k => componentStorageGetComponent m.store k (m.GetEntity i).dataIndex

/-- `Manager::ExpandSignatureCall`: `Helper = Rename<TSignature, ExpandCallHelper>`,
then `Helper::Call`. -/
def Manager.ExpandSignatureCallArgs (m : Manager V) (sig : List Nat) (i : Nat) : List V :=
  Manager.ExpandCallHelperArgs m (renameFold sig) i

/-- `Manager::ForEntitiesMatching` as the list of callback invocations it
performs: for each index in `[0, m_size)` that matches the signature, the
pair of the entity index and the forwarded component values. -/
def Manager.ForEntitiesMatchingCalls (nc : Nat) (m : Manager V) (sig : List Nat) :
    List (Nat × List V) :=
  (List.range m.size).filterMap fun i =>
    if Manager.MatchesSignature nc m sig i then
      some (i, Manager.ExpandSignatureCallArgs m sig i)
    else none

/-- `Manager::GetEntityCount`. -/
def Manager.GetEntityCount (m : Manager V) : Nat :=
  m.size

/-- The `Manager` constructor: default member initialization followed by
`GrowTo(DEFAULT_ENTITY_CAPACITY)`. -/
def managerInit (V : Type) [Inhabited V] (nc : Nat) : Manager V :=
  Manager.GrowTo nc
    { entities := [], capacity := 0, size := 0, sizeNext := 0, store := List.replicate nc [] }
    DEFAULT_ENTITY_CAPACITY

/-- States reachable from a freshly constructed manager through the public
operations, used within their documented contracts (indices below the pending
count, declared component kinds). -/
inductive Reachable (V : Type) [Inhabited V] (nc : Nat) : Manager V → Prop where
  | init : Reachable V nc (managerInit V nc)
  | create {m} : Reachable V nc m → Reachable V nc (Manager.CreateIndex nc m).2
  | kill {m i} : i < m.sizeNext → Reachable V nc m → Reachable V nc (Manager.Kill m i)
  | addComp {m k i v} : k < nc → i < m.sizeNext → Reachable V nc m →
      Reachable V nc (Manager.AddComponent m k i v)
  | delComp {m k i} : k < nc → i < m.sizeNext → Reachable V nc m →
      Reachable V nc (Manager.DeleteComponent m k i)
  | refresh {m} : Reachable V nc m → Reachable V nc (Manager.Refresh m)
  | clear {m} : Reachable V nc m → Reachable V nc (Manager.Clear m)

/-! ## Generic list lemmas -/

theorem getD_set_ne {α : Type} (l : List α) (i j : Nat) (x d : α) (h : i ≠ j) :
    (l.set i x).getD j d = l.getD j d := by
  simp [List.getD_eq_getElem?_getD, List.getElem?_set, h]

theorem getD_set_self {α : Type} (l : List α) (i : Nat) (x d : α) (h : i < l.length) :
    (l.set i x).getD i d = x := by
  simp [List.getD_eq_getElem?_getD, List.getElem?_set, h]

theorem getD_eq_getElem {α : Type} (l : List α) (i : Nat) (d : α) (h : i < l.length) :
    l.getD i d = l[i] := by
  simp [List.getD_eq_getElem?_getD, List.getElem?_eq_getElem h]

theorem set_set_swap_perm {α : Type} [Inhabited α] [DecidableEq α] (l : List α) (i j : Nat)
    (hi : i < l.length) (hj : j < l.length) (hne : i ≠ j) :
    ((l.set i (l.getD j default)).set j (l.getD i default)).Perm l := by
  rw [getD_eq_getElem l i default hi, getD_eq_getElem l j default hj]
  rw [List.perm_iff_count]
  intro b
  have hjl : j < (l.set i l[j]).length := by simpa using hj
  have hset : (l.set i l[j])[j] = l[j] := by
    rw [List.getElem_set_ne hne]
  rw [List.count_set _ _ _ _ hjl, hset, List.count_set _ _ _ _ hi]
  have h1 : l[i] = b → 1 ≤ List.count b l := by
    intro h
    subst h
    exact List.count_pos_iff.mpr (List.getElem_mem _)
  by_cases hx : l[i] = b
  · have h2 := h1 hx
    by_cases hy : l[j] = b <;> simp [hx, hy] <;> omega
  · by_cases hy : l[j] = b <;> simp [hx, hy]

/-! ## Scan lemmas for the two-pointer partition -/

theorem findDead_le (es : List Entity) (iA iD : Nat) (h : iD ≤ iA + 1) :
    findDead es iA iD ≤ iA + 1 := by
  refine findDead.induct es iA (fun j => j ≤ iA + 1 → findDead es iA j ≤ iA + 1) ?_ ?_ ?_ iD h
  · intro x hx h2
    rw [findDead, if_pos hx]
    exact h2
  · intro x hx ha ih h2
    rw [findDead, if_neg hx, if_pos ha]
    exact ih (by omega)
  · intro x hx ha h2
    rw [findDead, if_neg hx, if_neg ha]
    exact h2

theorem findDead_scanned (es : List Entity) (iA iD : Nat) :
    ∀ j, iD ≤ j → j < findDead es iA iD → (es.getD j default).alive = true := by
  refine findDead.induct es iA
    (fun i0 => ∀ j, i0 ≤ j → j < findDead es iA i0 → (es.getD j default).alive = true) ?_ ?_ ?_ iD
  · intro x hx j hj1 hj2
    rw [findDead, if_pos hx] at hj2
    omega
  · intro x hx ha ih j hj1 hj2
    rw [findDead, if_neg hx, if_pos ha] at hj2
    rcases Nat.lt_or_ge x j with hl | hg
    · exact ih j hl hj2
    · have hxj : j = x := by omega
      subst hxj
      exact ha
  · intro x hx ha j hj1 hj2
    rw [findDead, if_neg hx, if_neg ha] at hj2
    omega

theorem findDead_found (es : List Entity) (iA iD : Nat) (h : findDead es iA iD ≤ iA) :
    (es.getD (findDead es iA iD) default).alive = false := by
  refine findDead.induct es iA
    (fun j => findDead es iA j ≤ iA → (es.getD (findDead es iA j) default).alive = false)
    ?_ ?_ ?_ iD h
  · intro x hx h2
    rw [findDead, if_pos hx] at h2
    omega
  · intro x hx ha ih h2
    rw [findDead, if_neg hx, if_pos ha] at h2 ⊢
    exact ih h2
  · intro x hx ha h2
    rw [findDead, if_neg hx, if_neg ha]
    simpa using ha

theorem findDead_all_alive (es : List Entity) (iA iD : Nat) (h : iD ≤ iA + 1)
    (ha : ∀ j, iD ≤ j → j ≤ iA → (es.getD j default).alive = true) :
    findDead es iA iD = iA + 1 := by
  have h1 := findDead_ge es iA iD
  have h2 := findDead_le es iA iD h
  rcases Nat.lt_or_ge iA (findDead es iA iD) with hl | hg
  · omega
  · have := findDead_found es iA iD hg
    have := ha (findDead es iA iD) h1 hg
    simp_all

theorem findAlive_ge (es : List Entity) (iD iA : Nat) (h : iD ≤ iA) :
    iD ≤ findAlive es iD iA := by
  refine findAlive.induct es iD (fun j => iD ≤ j → iD ≤ findAlive es iD j) ?_ ?_ ?_ iA h
  · intro x hx h2
    rw [findAlive, if_pos hx]
    exact h2
  · intro x hx hle h2
    rw [findAlive, if_neg hx, if_pos hle]
  · intro x hx hgt ih h2
    rw [findAlive, if_neg hx, if_neg hgt]
    exact ih (by omega)

theorem findAlive_scanned (es : List Entity) (iD iA : Nat) (h : iD ≤ iA) :
    ∀ j, findAlive es iD iA < j → j ≤ iA → (es.getD j default).alive = false := by
  refine findAlive.induct es iD
    (fun i0 => iD ≤ i0 →
      ∀ j, findAlive es iD i0 < j → j ≤ i0 → (es.getD j default).alive = false)
    ?_ ?_ ?_ iA h
  · intro x hx h2 j hj1 hj2
    rw [findAlive, if_pos hx] at hj1
    omega
  · intro x hx hle h2 j hj1 hj2
    rw [findAlive, if_neg hx, if_pos hle] at hj1
    have hxj : j = x := by omega
    subst hxj
    simpa using hx
  · intro x hx hgt ih h2 j hj1 hj2
    rw [findAlive, if_neg hx, if_neg hgt] at hj1
    rcases Nat.lt_or_ge j x with hl | hg
    · exact ih (by omega) j hj1 (by omega)
    · have hxj : j = x := by omega
      subst hxj
      simpa using hx

theorem findAlive_found_or (es : List Entity) (iD iA : Nat) :
    (es.getD (findAlive es iD iA) default).alive = true ∨ findAlive es iD iA = iD := by
  refine findAlive.induct es iD
    (fun j => (es.getD (findAlive es iD j) default).alive = true ∨ findAlive es iD j = iD)
    ?_ ?_ ?_ iA
  · intro x hx
    rw [findAlive, if_pos hx]
    exact Or.inl hx
  · intro x hx hle
    rw [findAlive, if_neg hx, if_pos hle]
    exact Or.inr rfl
  · intro x hx hgt ih
    rw [findAlive, if_neg hx, if_neg hgt]
    exact ih

/-! ## Correctness of the two-pointer partition -/

theorem getD_congr_of_getElem? {α : Type} [Inhabited α] {l₁ l₂ : List α} {j : Nat}
    (h : l₁[j]? = l₂[j]?) : l₁.getD j default = l₂.getD j default := by
  simp [List.getD_eq_getElem?_getD, h]

/-- What `arrangeLoop es iD iA swaps = (es', k, _)` guarantees, given that all
positions below `iD` are alive: `es'` is a whole-record permutation of `es`,
positions outside `[iD, iA]` are untouched, positions below `k` are alive and
positions in `[k, iA]` are dead. -/
def ArrangeOut (es : List Entity) (iD iA : Nat) (es' : List Entity) (k : Nat) : Prop :=
  es'.Perm es ∧ es'.length = es.length ∧
  (∀ j, j < iD → es'[j]? = es[j]?) ∧
  (∀ j, iA < j → es'[j]? = es[j]?) ∧
  iD ≤ k ∧ k ≤ iA + 1 ∧
  (∀ j, j < k → (es'.getD j default).alive = true) ∧
  (∀ j, k ≤ j → j ≤ iA → (es'.getD j default).alive = false)

theorem arrangeLoop_spec :
    ∀ (es : List Entity) (iD iA swaps : Nat) (es' : List Entity) (k s : Nat),
      arrangeLoop es iD iA swaps = (es', k, s) →
      (∀ j, j < iD → (es.getD j default).alive = true) →
      iD ≤ iA + 1 →
      ArrangeOut es iD iA es' k := by
  intro es0 iD0 iA0 swaps0
  refine arrangeLoop.induct
    (fun es iD iA swaps => ∀ (es' : List Entity) (k s : Nat),
      arrangeLoop es iD iA swaps = (es', k, s) →
      (∀ j, j < iD → (es.getD j default).alive = true) →
      iD ≤ iA + 1 →
      ArrangeOut es iD iA es' k) ?_ ?_ ?_ es0 iD0 iA0 swaps0
  · -- return case: the forward cursor overtook the backward cursor
    intro es iD iA swaps hd es' k s heq hpre hle
    rw [arrangeLoop, if_pos hd] at heq
    simp only [Prod.mk.injEq] at heq
    obtain ⟨rfl, rfl, rfl⟩ := heq
    refine ⟨List.Perm.refl es, rfl, fun j _ => rfl, fun j _ => rfl,
      findDead_ge es iA iD, findDead_le es iA iD hle, ?_, ?_⟩
    · intro j hj
      rcases Nat.lt_or_ge j iD with hl | hg
      · exact hpre j hl
      · exact findDead_scanned es iA iD j hg hj
    · intro j hj1 hj2
      omega
  · -- swap case
    intro es iD iA swaps hd ha ih es' k s heq hpre hle
    rw [arrangeLoop, if_neg hd, if_pos ha] at heq
    have hdle : findDead es iA iD ≤ iA := by omega
    have hdge := findDead_ge es iA iD
    have hage := findAlive_ge es (findDead es iA iD) iA hdle
    have hale := findAlive_le es (findDead es iA iD) iA hdle
    have hdead := findDead_found es iA iD hdle
    have halen : findAlive es (findDead es iA iD) iA < es.length := by
      by_contra hcon
      rw [List.getD_eq_getElem?_getD, List.getElem?_eq_none (by omega)] at ha
      simp at ha
    have hne : findDead es iA iD ≠ findAlive es (findDead es iA iD) iA := by
      intro hcon
      rw [hcon, ha] at hdead
      simp at hdead
    have hdlta : findDead es iA iD < findAlive es (findDead es iA iD) iA := by omega
    have hdlen : findDead es iA iD < es.length := by omega
    have hpre2 : ∀ j, j < findDead es iA iD + 1 →
        (((es.set (findDead es iA iD)
            (es.getD (findAlive es (findDead es iA iD) iA) default)).set
          (findAlive es (findDead es iA iD) iA)
          (es.getD (findDead es iA iD) default)).getD j default).alive = true := by
      intro j hj
      rcases Nat.lt_or_ge j (findDead es iA iD) with hl | hg
      · rw [getD_set_ne _ _ _ _ _ (by omega), getD_set_ne _ _ _ _ _ (by omega)]
        rcases Nat.lt_or_ge j iD with hl2 | hg2
        · exact hpre j hl2
        · exact findDead_scanned es iA iD j hg2 hl
      · have hjd : j = findDead es iA iD := by omega
        subst hjd
        rw [getD_set_ne _ _ _ _ _ (by omega), getD_set_self _ _ _ _ hdlen]
        exact ha
    obtain ⟨ihPerm, ihLen, ihUnL, ihUnR, ihKge, ihKle, ihAlive, ihDead⟩ :=
      ih es' k s heq hpre2 (by omega)
    have hes2len : ((es.set (findDead es iA iD)
        (es.getD (findAlive es (findDead es iA iD) iA) default)).set
          (findAlive es (findDead es iA iD) iA)
          (es.getD (findDead es iA iD) default)).length = es.length := by
      simp
    have hes2perm := set_set_swap_perm es (findDead es iA iD)
      (findAlive es (findDead es iA iD) iA) hdlen halen hne
    have hes2out : ∀ j, j ≠ findDead es iA iD → j ≠ findAlive es (findDead es iA iD) iA →
        ((es.set (findDead es iA iD)
            (es.getD (findAlive es (findDead es iA iD) iA) default)).set
          (findAlive es (findDead es iA iD) iA)
          (es.getD (findDead es iA iD) default))[j]? = es[j]? := by
      intro j h1 h2
      have h1' : findDead es iA iD ≠ j := Ne.symm h1
      have h2' : findAlive es (findDead es iA iD) iA ≠ j := Ne.symm h2
      simp [List.getElem?_set, h1', h2']
    refine ⟨ihPerm.trans hes2perm, by omega, ?_, ?_, by omega, by omega, ihAlive, ?_⟩
    · intro j hj
      rw [ihUnL j (by omega)]
      exact hes2out j (by omega) (by omega)
    · intro j hj
      rw [ihUnR j (by omega)]
      exact hes2out j (by omega) (by omega)
    · intro j hj1 hj2
      rcases Nat.lt_or_ge j (findAlive es (findDead es iA iD) iA) with hl | hg
      · exact ihDead j hj1 (by omega)
      · rcases Nat.eq_or_lt_of_le hg with heqa | hgt
        · rw [getD_congr_of_getElem? (ihUnR j (by omega))]
          subst heqa
          rw [getD_set_self _ _ _ _ (by simpa using halen)]
          exact hdead
        · rw [getD_congr_of_getElem? (ihUnR j (by omega)),
            getD_congr_of_getElem? (hes2out j (by omega) (by omega))]
          exact findAlive_scanned es (findDead es iA iD) iA hdle j hgt hj2
  · -- return case: the backward cursor reached the forward cursor
    intro es iD iA swaps hd ha es' k s heq hpre hle
    rw [arrangeLoop, if_neg hd, if_neg ha] at heq
    simp only [Prod.mk.injEq] at heq
    obtain ⟨rfl, rfl, rfl⟩ := heq
    have hdle : findDead es iA iD ≤ iA := by omega
    have haeq : findAlive es (findDead es iA iD) iA = findDead es iA iD := by
      rcases findAlive_found_or es (findDead es iA iD) iA with hcase | hcase
      · exact absurd hcase ha
      · exact hcase
    refine ⟨List.Perm.refl es, rfl, fun j _ => rfl, fun j _ => rfl,
      findDead_ge es iA iD, by omega, ?_, ?_⟩
    · intro j hj
      rcases Nat.lt_or_ge j iD with hl | hg
      · exact hpre j hl
      · exact findDead_scanned es iA iD j hg hj
    · intro j hj1 hj2
      rcases Nat.eq_or_lt_of_le hj1 with heqd | hgt
      · rw [← heqd]
        exact findDead_found es iA iD hdle
      · exact findAlive_scanned es (findDead es iA iD) iA hdle j (by omega) hj2

/-! ## Counting the live prefix -/

theorem drop_eq_of_getElem? {α : Type} {l₁ l₂ : List α} (n : Nat)
    (h : ∀ j, n ≤ j → l₁[j]? = l₂[j]?) : l₁.drop n = l₂.drop n := by
  apply List.ext_getElem?
  intro i
  rw [List.getElem?_drop, List.getElem?_drop]
  exact h (n + i) (by omega)

theorem countP_take_eq_of_partition (es : List Entity) (k n : Nat) (hkn : k ≤ n)
    (hnlen : n ≤ es.length)
    (halive : ∀ j, j < k → (es.getD j default).alive = true)
    (hdead : ∀ j, k ≤ j → j < n → (es.getD j default).alive = false) :
    (es.take n).countP (fun e => e.alive) = k := by
  have hsplit : es.take n = (es.take n).take k ++ (es.take n).drop k :=
    (List.take_append_drop k (es.take n)).symm
  rw [hsplit, List.countP_append]
  have h1 : ((es.take n).take k).countP (fun e => e.alive) = k := by
    have hall : ∀ x ∈ (es.take n).take k, x.alive = true := by
      intro x hx
      rw [List.mem_iff_getElem] at hx
      obtain ⟨i, hi, rfl⟩ := hx
      have hik : i < k := by simp [List.length_take] at hi; omega
      have hilen : i < es.length := by simp [List.length_take] at hi; omega
      rw [List.getElem_take, List.getElem_take, ← getD_eq_getElem es i default hilen]
      exact halive i hik
    rw [List.countP_eq_length.mpr hall]
    simp [List.length_take]
    omega
  have h2 : ((es.take n).drop k).countP (fun e => e.alive) = 0 := by
    rw [List.countP_eq_zero]
    intro x hx
    rw [List.mem_iff_getElem] at hx
    obtain ⟨i, hi, rfl⟩ := hx
    have hin : k + i < n := by
      simp [List.length_drop, List.length_take] at hi
      omega
    have hilen : k + i < es.length := by omega
    rw [List.getElem_drop, List.getElem_take, ← getD_eq_getElem es (k + i) default hilen,
      hdead (k + i) (by omega) hin]
    simp
  omega

/-! ## `Refresh` -/

theorem Refresh_spec (m : Manager V) (h1 : 1 ≤ m.sizeNext) (h2 : m.sizeNext ≤ m.entities.length) :
    (Manager.Refresh m).entities.Perm m.entities ∧
    (∀ p, p < (Manager.Refresh m).size →
      ((Manager.Refresh m).entities.getD p default).alive = true) ∧
    (∀ p, (Manager.Refresh m).size ≤ p → p < m.sizeNext →
      ((Manager.Refresh m).entities.getD p default).alive = false) ∧
    ((Manager.Refresh m).entities.filter (fun e => e.alive)).Perm
      (m.entities.filter (fun e => e.alive)) ∧
    (Manager.Refresh m).size = (m.entities.take m.sizeNext).countP (fun e => e.alive) ∧
    (Manager.Refresh m).size = (Manager.Refresh m).sizeNext ∧
    (Manager.Refresh m).size ≤ m.sizeNext ∧
    (Manager.Refresh m).entities.length = m.entities.length ∧
    (∀ p, m.sizeNext ≤ p →
      (Manager.Refresh m).entities.getD p default = m.entities.getD p default) := by
  have hnz : ¬ m.sizeNext = 0 := by omega
  obtain ⟨hPerm, hLen, hUnL, hUnR, hKge, hKle, hAlive, hDead⟩ :=
    arrangeLoop_spec m.entities 0 (m.sizeNext - 1) 0
      (arrangeLoop m.entities 0 (m.sizeNext - 1) 0).1
      (arrangeLoop m.entities 0 (m.sizeNext - 1) 0).2.1
      (arrangeLoop m.entities 0 (m.sizeNext - 1) 0).2.2
      rfl (by intro j hj; omega) (by omega)
  rw [Manager.Refresh, if_neg hnz, Manager.ArrangeAliveEntitiesToLeft]
  dsimp only
  refine ⟨hPerm, hAlive, ?_, List.Perm.filter _ hPerm, ?_, rfl, by omega, hLen,
    fun p hp => getD_congr_of_getElem? (hUnR p (by omega))⟩
  · intro p hp1 hp2
    exact hDead p hp1 (by omega)
  · have hdropEq : (arrangeLoop m.entities 0 (m.sizeNext - 1) 0).1.drop m.sizeNext =
        m.entities.drop m.sizeNext :=
      drop_eq_of_getElem? m.sizeNext (fun j hj => hUnR j (by omega))
    have htake : ((arrangeLoop m.entities 0 (m.sizeNext - 1) 0).1.take m.sizeNext).countP
        (fun e => e.alive) = (arrangeLoop m.entities 0 (m.sizeNext - 1) 0).2.1 := by
      refine countP_take_eq_of_partition _ _ _ (by omega) (by omega) hAlive ?_
      intro j hj1 hj2
      exact hDead j hj1 (by omega)
    have hPermCount := hPerm.countP_eq (fun e => e.alive)
    have hsplit1 := List.take_append_drop m.sizeNext
      (arrangeLoop m.entities 0 (m.sizeNext - 1) 0).1
    have hsplit2 := List.take_append_drop m.sizeNext m.entities
    have hc1 : ((arrangeLoop m.entities 0 (m.sizeNext - 1) 0).1.take m.sizeNext).countP
          (fun e => e.alive) +
        ((arrangeLoop m.entities 0 (m.sizeNext - 1) 0).1.drop m.sizeNext).countP
          (fun e => e.alive) =
        ((arrangeLoop m.entities 0 (m.sizeNext - 1) 0).1).countP (fun e => e.alive) := by
      rw [← List.countP_append, hsplit1]
    have hc2 : (m.entities.take m.sizeNext).countP (fun e => e.alive) +
        (m.entities.drop m.sizeNext).countP (fun e => e.alive) =
        m.entities.countP (fun e => e.alive) := by
      rw [← List.countP_append, hsplit2]
    rw [hdropEq] at hc1
    omega

theorem arrangeLoop_all_alive (es : List Entity) (n : Nat) (hn : 1 ≤ n)
    (ha : ∀ j, j < n → (es.getD j default).alive = true) :
    arrangeLoop es 0 (n - 1) 0 = (es, n, 0) := by
  have hfd : findDead es (n - 1) 0 = (n - 1) + 1 :=
    findDead_all_alive es (n - 1) 0 (by omega) (fun j h1j h2j => ha j (by omega))
  rw [arrangeLoop, hfd, if_pos (by omega)]
  have h3 : n - 1 + 1 = n := by omega
  rw [h3]

theorem manager_update_size_self (m : Manager V) (n : Nat) (h : m.size = n) :
    ({ m with size := n } : Manager V) = m := by
  cases m
  simp_all

theorem manager_update_refresh_self (m : Manager V) (n : Nat)
    (hs : m.size = n) (hn : m.sizeNext = n) :
    ({ m with entities := m.entities, size := n, sizeNext := n } : Manager V) = m := by
  cases m
  simp_all

/-- A refresh on a state whose live prefix is already compacted (live count
equal to pending count, all pending positions alive) is the identity and
performs no swaps. -/
theorem Refresh_of_compacted (m : Manager V) (hss : m.size = m.sizeNext)
    (halive : ∀ j, j < m.sizeNext → (m.entities.getD j default).alive = true) :
    Manager.Refresh m = m ∧ Manager.RefreshSwapCount m = 0 := by
  by_cases h0 : m.sizeNext = 0
  · constructor
    · rw [Manager.Refresh, if_pos h0]
      exact manager_update_size_self m 0 (by omega)
    · rw [Manager.RefreshSwapCount, if_pos h0]
  · have hloop := arrangeLoop_all_alive m.entities m.sizeNext (by omega) halive
    constructor
    · rw [Manager.Refresh, if_neg h0, Manager.ArrangeAliveEntitiesToLeft, hloop]
      dsimp only
      exact manager_update_refresh_self m m.sizeNext (by omega) rfl
    · rw [Manager.RefreshSwapCount, if_neg h0, Manager.ArrangeAliveEntitiesToLeft, hloop]

theorem Refresh_size_eq_sizeNext (m : Manager V) (h0 : ¬ m.sizeNext = 0) :
    (Manager.Refresh m).entities = (arrangeLoop m.entities 0 (m.sizeNext - 1) 0).1 ∧
    (Manager.Refresh m).size = (arrangeLoop m.entities 0 (m.sizeNext - 1) 0).2.1 ∧
    (Manager.Refresh m).sizeNext = (arrangeLoop m.entities 0 (m.sizeNext - 1) 0).2.1 := by
  rw [Manager.Refresh, if_neg h0, Manager.ArrangeAliveEntitiesToLeft]
  exact ⟨rfl, rfl, rfl⟩

/-! ## Signature bitsets -/

theorem foldl_set_length (sig : List Nat) (acc : List Bool) :
    (sig.foldl (fun bs k => bs.set k true) acc).length = acc.length := by
  induction sig generalizing acc with
  | nil => rfl
  | cons k t ih => simp [List.foldl_cons, ih]

theorem initSignatureBitset_length (nc : Nat) (sig : List Nat) :
    (initSignatureBitset nc sig).length = nc := by
  rw [initSignatureBitset, foldl_set_length]
  simp

theorem foldl_set_getD (sig : List Nat) (acc : List Bool) (j : Nat)
    (hsig : ∀ k ∈ sig, k < acc.length) :
    (sig.foldl (fun bs k => bs.set k true) acc).getD j false =
      (acc.getD j false || decide (j ∈ sig)) := by
  induction sig generalizing acc with
  | nil => simp
  | cons k t ih =>
    rw [List.foldl_cons, ih (acc.set k true)
      (by intro x hx; simpa using hsig x (List.mem_cons_of_mem k hx))]
    by_cases hjk : j = k
    · subst hjk
      rw [getD_set_self _ _ _ _ (hsig j (by simp))]
      simp
    · rw [getD_set_ne _ _ _ _ _ (Ne.symm hjk)]
      simp [List.mem_cons, hjk]

theorem initSignatureBitset_getD (nc : Nat) (sig : List Nat)
    (hsig : ∀ k ∈ sig, k < nc) (j : Nat) :
    (initSignatureBitset nc sig).getD j false = decide (j ∈ sig) := by
  rw [initSignatureBitset, foldl_set_getD sig _ j (by simpa using hsig)]
  rcases Nat.lt_or_ge j nc with h | h
  · simp [List.getD_eq_getElem?_getD, List.getElem?_replicate, h]
  · simp [List.getD_eq_getElem?_getD, List.getElem?_replicate, Nat.not_lt_of_ge h]

/-! ## Growth -/

theorem listResize_length {α : Type} [Inhabited α] (l : List α) (n : Nat) :
    (listResize l n).length = n := by
  rw [listResize]
  simp [List.length_take]
  omega

theorem listResize_getD_lt {α : Type} [Inhabited α] (l : List α) (n i : Nat)
    (hil : i < l.length) (hin : i < n) :
    (listResize l n).getD i default = l.getD i default := by
  have hmin : i < n ⊓ l.length := by omega
  simp [listResize, List.getD_eq_getElem?_getD, List.getElem?_append, List.length_take,
    List.getElem?_take, hin, hmin, List.getElem?_eq_getElem hil]

theorem GrowTo_entities_length (nc : Nat) (m : Manager V) (newCapacity : Nat) :
    (Manager.GrowTo nc m newCapacity).entities.length = newCapacity := by
  rw [Manager.GrowTo]
  dsimp only
  rw [List.length_mapIdx, listResize_length]

theorem GrowTo_getD_preserved (nc : Nat) (m : Manager V) (newCapacity i : Nat)
    (hlen : m.entities.length = m.capacity) (hi : i < m.capacity) (hcap : m.capacity ≤ newCapacity) :
    (Manager.GrowTo nc m newCapacity).entities.getD i default = m.entities.getD i default := by
  rw [Manager.GrowTo]
  dsimp only
  have hlenr : i < ((listResize m.entities newCapacity).mapIdx fun j e =>
      if m.capacity ≤ j then
        ({ dataIndex := j, bitset := List.replicate nc false, alive := false } : Entity)
      else e).length := by
    rw [List.length_mapIdx, listResize_length]
    omega
  rw [getD_eq_getElem _ _ _ hlenr, List.getElem_mapIdx, if_neg (by omega)]
  rw [← getD_eq_getElem _ _ default (by rw [listResize_length]; omega)]
  exact listResize_getD_lt m.entities newCapacity i (by omega) (by omega)

theorem GrowTo_getD_fresh (nc : Nat) (m : Manager V) (newCapacity i : Nat)
    (hi1 : m.capacity ≤ i) (hi2 : i < newCapacity) :
    (Manager.GrowTo nc m newCapacity).entities.getD i default =
      { dataIndex := i, bitset := List.replicate nc false, alive := false } := by
  rw [Manager.GrowTo]
  dsimp only
  have hlenr : i < ((listResize m.entities newCapacity).mapIdx fun j e =>
      if m.capacity ≤ j then
        ({ dataIndex := j, bitset := List.replicate nc false, alive := false } : Entity)
      else e).length := by
    rw [List.length_mapIdx, listResize_length]
    omega
  rw [getD_eq_getElem _ _ _ hlenr, List.getElem_mapIdx, if_pos hi1]

theorem GrowTo_store_get (nc : Nat) (m : Manager V) (newCapacity k slot : Nat)
    (hst : ∀ l ∈ m.store, l.length = m.capacity)
    (hslot : slot < m.capacity) (hcap : m.capacity ≤ newCapacity) :
    componentStorageGetComponent (Manager.GrowTo nc m newCapacity).store k slot =
      componentStorageGetComponent m.store k slot := by
  rw [Manager.GrowTo]
  dsimp only
  rw [componentStorageGetComponent, componentStorageGetComponent]
  rcases Nat.lt_or_ge k m.store.length with hk | hk
  · have h1 : (m.store.map fun v => listResize v newCapacity).getD k [] =
        listResize (m.store.getD k []) newCapacity := by
      rw [getD_eq_getElem _ _ _ (by simpa using hk), List.getElem_map,
        getD_eq_getElem _ _ _ hk]
    rw [h1]
    have h2 : (m.store.getD k []).length = m.capacity := by
      rw [getD_eq_getElem _ _ _ hk]
      exact hst _ (List.getElem_mem hk)
    exact listResize_getD_lt _ _ _ (by omega) (by omega)
  · have h1 : (m.store.map fun v => listResize v newCapacity).getD k [] = [] := by
      rw [List.getD_eq_getElem?_getD, List.getElem?_eq_none (by simpa using hk)]
      rfl
    have h2 : m.store.getD k [] = [] := by
      rw [List.getD_eq_getElem?_getD, List.getElem?_eq_none hk]
      rfl
    rw [h1, h2]

theorem GrowIfNeeded_spec (nc : Nat) (m : Manager V)
    (hlen : m.entities.length = m.capacity) (hsn : m.sizeNext ≤ m.capacity) :
    (Manager.GrowIfNeeded nc m).sizeNext = m.sizeNext ∧
    (Manager.GrowIfNeeded nc m).size = m.size ∧
    (Manager.GrowIfNeeded nc m).entities.length = (Manager.GrowIfNeeded nc m).capacity ∧
    m.sizeNext < (Manager.GrowIfNeeded nc m).capacity ∧
    m.capacity ≤ (Manager.GrowIfNeeded nc m).capacity ∧
    (∀ j, j < m.capacity →
      (Manager.GrowIfNeeded nc m).entities.getD j default = m.entities.getD j default) ∧
    (∀ j, m.capacity ≤ j →
      ((Manager.GrowIfNeeded nc m).entities.getD j default).alive = false) := by
  rw [Manager.GrowIfNeeded]
  by_cases hgc : m.capacity > m.sizeNext
  · rw [if_pos hgc]
    refine ⟨rfl, rfl, hlen, by omega, by omega, fun j hj => rfl, ?_⟩
    intro j hj
    rw [List.getD_eq_getElem?_getD, List.getElem?_eq_none (by omega)]
    rfl
  · rw [if_neg hgc]
    have hceq : m.capacity = m.sizeNext := by omega
    have hcap2 : (Manager.GrowTo nc m ((m.capacity + 10) * 2)).capacity =
        (m.capacity + 10) * 2 := rfl
    refine ⟨rfl, rfl, ?_, ?_, ?_, ?_, ?_⟩
    · rw [GrowTo_entities_length, hcap2]
    · rw [hcap2]
      omega
    · rw [hcap2]
      omega
    · intro j hj
      exact GrowTo_getD_preserved nc m _ j hlen hj (by omega)
    · intro j hj
      rcases Nat.lt_or_ge j ((m.capacity + 10) * 2) with hl | hg
      · rw [GrowTo_getD_fresh nc m _ j hj hl]
      · rw [List.getD_eq_getElem?_getD, List.getElem?_eq_none
          (by rw [GrowTo_entities_length]; omega)]
        rfl

theorem CreateIndex_spec (nc : Nat) (m : Manager V)
    (hlen : m.entities.length = m.capacity) (hsn : m.sizeNext ≤ m.capacity) :
    (Manager.CreateIndex nc m).1 = m.sizeNext ∧
    (Manager.CreateIndex nc m).2.sizeNext = m.sizeNext + 1 ∧
    (Manager.CreateIndex nc m).2.size = m.size ∧
    (Manager.CreateIndex nc m).2.entities.length = (Manager.CreateIndex nc m).2.capacity ∧
    (Manager.CreateIndex nc m).2.sizeNext ≤ (Manager.CreateIndex nc m).2.capacity ∧
    m.capacity ≤ (Manager.CreateIndex nc m).2.capacity ∧
    ((Manager.CreateIndex nc m).2.entities.getD m.sizeNext default).alive = true ∧
    (∀ j, j < m.sizeNext →
      (Manager.CreateIndex nc m).2.entities.getD j default = m.entities.getD j default) ∧
    ((∀ j, m.sizeNext ≤ j → j < m.capacity → (m.entities.getD j default).alive = false) →
      ∀ j, m.sizeNext + 1 ≤ j →
        ((Manager.CreateIndex nc m).2.entities.getD j default).alive = false) := by
  obtain ⟨g1, g2, g3, g4, g5, g6, g7⟩ := GrowIfNeeded_spec nc m hlen hsn
  rw [Manager.CreateIndex]
  dsimp only
  have hsetlen : m.sizeNext < (Manager.GrowIfNeeded nc m).entities.length := by omega
  refine ⟨g1, by rw [g1], g2, by simp [List.length_set]; omega, by rw [g1]; omega, by omega,
    ?_, ?_, ?_⟩
  · rw [g1, getD_set_self _ _ _ _ hsetlen]
  · intro j hj
    rw [g1, getD_set_ne _ _ _ _ _ (by omega)]
    exact g6 j (by omega)
  · intro hdead j hj
    rw [g1, getD_set_ne _ _ _ _ _ (by omega)]
    rcases Nat.lt_or_ge j m.capacity with hl | hg
    · rw [g6 j hl]
      exact hdead j (by omega) hl
    · exact g7 j hg

/-! ## The freshly constructed manager and creation sequences -/

theorem managerInit_base (V : Type) [Inhabited V] (nc : Nat) :
    (managerInit V nc).sizeNext = 0 ∧ (managerInit V nc).size = 0 ∧
    (managerInit V nc).capacity = DEFAULT_ENTITY_CAPACITY ∧
    (managerInit V nc).entities.length = DEFAULT_ENTITY_CAPACITY ∧
    (∀ p, p < DEFAULT_ENTITY_CAPACITY →
      ((managerInit V nc).entities.getD p default).alive = false) := by
  refine ⟨rfl, rfl, rfl, ?_, ?_⟩
  · rw [managerInit, GrowTo_entities_length]
  · intro p hp
    rw [managerInit, GrowTo_getD_fresh nc _ _ p (Nat.zero_le p) hp]

/-- `n` successive `CreateIndex` calls on a freshly constructed manager. -/
def createN (V : Type) [Inhabited V] (nc : Nat) : Nat → Manager V
  | 0 => managerInit V nc
  | n + 1 => (Manager.CreateIndex nc (createN V nc n)).2

theorem createN_invariant (V : Type) [Inhabited V] (nc : Nat) :
    ∀ n, (createN V nc n).sizeNext = n ∧
      (createN V nc n).entities.length = (createN V nc n).capacity ∧
      n ≤ (createN V nc n).capacity ∧
      (∀ j, j < n → ((createN V nc n).entities.getD j default).alive = true) := by
  intro n
  induction n with
  | zero =>
    obtain ⟨h1, h2, h3, h4, h5⟩ := managerInit_base V nc
    rw [createN]
    refine ⟨h1, ?_, Nat.zero_le _, fun j hj => absurd hj (by omega)⟩
    rw [h4, h3]
  | succ n ih =>
    obtain ⟨i1, i2, i3, i4⟩ := ih
    obtain ⟨c1, c2, c3, c4, c5, c6, c7, c8, c9⟩ :=
      CreateIndex_spec nc (createN V nc n) i2 (by omega)
    rw [createN]
    refine ⟨by rw [c2, i1], c4, ?_, ?_⟩
    · have := c5
      omega
    · intro j hj
      rcases Nat.lt_or_ge j n with hl | hg
      · rw [c8 j (by omega)]
        exact i4 j hl
      · have hjn : j = n := by omega
        rw [i1] at c7
        rw [hjn]
        exact c7

/-! ## `Clear` -/

theorem Clear_entities_length (m : Manager V) :
    (Manager.Clear m).entities.length = m.entities.length := by
  rw [Manager.Clear]
  dsimp only
  rw [List.length_mapIdx]

theorem Clear_getD (m : Manager V) (p : Nat) (hp : p < m.entities.length) :
    (Manager.Clear m).entities.getD p default =
      if p < m.capacity then
        { dataIndex := p, bitset := (m.entities.getD p default).bitset.map fun _ => false,
          alive := false }
      else m.entities.getD p default := by
  rw [Manager.Clear]
  dsimp only
  rw [getD_eq_getElem _ _ _ (by rw [List.length_mapIdx]; exact hp), List.getElem_mapIdx,
    getD_eq_getElem _ _ _ hp]

theorem Refresh_unchanged_fields (m : Manager V) :
    (Manager.Refresh m).capacity = m.capacity ∧ (Manager.Refresh m).store = m.store := by
  rw [Manager.Refresh]
  split <;> exact ⟨rfl, rfl⟩

/-! ## The reachable-state invariant -/

theorem reachable_inv (nc : Nat) (m : Manager V) (h : Reachable V nc m) :
    m.entities.length = m.capacity ∧ m.sizeNext ≤ m.capacity ∧
    (∀ p, m.sizeNext ≤ p → p < m.capacity → (m.entities.getD p default).alive = false) := by
  induction h with
  | init =>
    obtain ⟨h1, h2, h3, h4, h5⟩ := managerInit_base V nc
    refine ⟨by rw [h4, h3], by rw [h1]; exact Nat.zero_le _, ?_⟩
    intro p hp1 hp2
    exact h5 p (by rw [← h3]; exact hp2)
  | create hm ih =>
    obtain ⟨i1, i2, i3⟩ := ih
    obtain ⟨c1, c2, c3, c4, c5, c6, c7, c8, c9⟩ := CreateIndex_spec nc _ i1 i2
    refine ⟨c4, c5, ?_⟩
    intro p hp1 hp2
    exact c9 i3 p (by omega)
  | @kill m0 i hik hm ih =>
    obtain ⟨i1, i2, i3⟩ := ih
    rw [Manager.Kill]
    dsimp only
    refine ⟨by simp [i1], i2, ?_⟩
    intro p hp1 hp2
    by_cases hpi : p = i
    · subst hpi
      rw [getD_set_self _ _ _ _ (by omega)]
    · rw [getD_set_ne _ _ _ _ _ (fun hc => hpi hc.symm)]
      exact i3 p hp1 hp2
  | @addComp m0 k i v hk hik hm ih =>
    obtain ⟨i1, i2, i3⟩ := ih
    rw [Manager.AddComponent]
    dsimp only
    refine ⟨by simp [i1], i2, ?_⟩
    intro p hp1 hp2
    by_cases hpi : p = i
    · subst hpi
      rw [getD_set_self _ _ _ _ (by omega)]
      rw [Manager.GetEntity]
      exact i3 p hp1 hp2
    · rw [getD_set_ne _ _ _ _ _ (fun hc => hpi hc.symm)]
      exact i3 p hp1 hp2
  | @delComp m0 k i hk hik hm ih =>
    obtain ⟨i1, i2, i3⟩ := ih
    rw [Manager.DeleteComponent]
    dsimp only
    refine ⟨by simp [i1], i2, ?_⟩
    intro p hp1 hp2
    by_cases hpi : p = i
    · subst hpi
      rw [getD_set_self _ _ _ _ (by omega)]
      rw [Manager.GetEntity]
      exact i3 p hp1 hp2
    · rw [getD_set_ne _ _ _ _ _ (fun hc => hpi hc.symm)]
      exact i3 p hp1 hp2
  | @refresh m0 hm ih =>
    obtain ⟨i1, i2, i3⟩ := ih
    obtain ⟨hcap, hstore⟩ := Refresh_unchanged_fields m0
    by_cases h0 : m0.sizeNext = 0
    · rw [Manager.Refresh, if_pos h0]
      dsimp only
      exact ⟨i1, by omega, fun p hp1 hp2 => i3 p (by omega) hp2⟩
    · obtain ⟨rPerm, rAlive, rDead, rFilter, rCount, rEq, rLe, rLen, rBeyond⟩ :=
        Refresh_spec m0 (by omega) (by omega)
      refine ⟨by rw [rLen, hcap]; exact i1, by omega, ?_⟩
      intro p hp1 hp2
      rcases Nat.lt_or_ge p m0.sizeNext with hl | hg
      · exact rDead p (by omega) hl
      · rw [rBeyond p hg]
        exact i3 p (by omega) (by rw [← hcap]; exact hp2)
  | @clear m0 hm ih =>
    obtain ⟨i1, i2, i3⟩ := ih
    refine ⟨?_, Nat.zero_le _, ?_⟩
    · rw [Clear_entities_length]
      exact i1
    · intro p hp1 hp2
      have hp2' : p < m0.capacity := hp2
      rw [Clear_getD m0 p (by omega), if_pos hp2']

/-! ## `Rename` reverses the signature's kind list -/

theorem renameFold_eq_reverse (sig : List Nat) : renameFold sig = sig.reverse := by
  rw [renameFold]
  suffices h : ∀ acc : List Nat, sig.foldl (fun acc k => k :: acc) acc = sig.reverse ++ acc by
    simp [h []]
  induction sig with
  | nil => intro acc; simp
  | cons k t ih => intro acc; simp [List.foldl_cons, ih]

/-! ## Concrete example states used by witnesses and counterexamples -/

/-- A table with a dead record followed by an alive record, pending count 2. -/
def mC1 : Manager Nat :=
  { entities := [⟨0, [], false⟩, ⟨1, [], true⟩], capacity := 2, size := 0, sizeNext := 2,
    store := [] }

/-- One live entity owning both of two component kinds, with payloads 10 and 20. -/
def mC2 : Manager Nat :=
  { entities := [⟨0, [true, true], true⟩], capacity := 1, size := 1, sizeNext := 1,
    store := [[10], [20]] }

/-- One pending entity with a single component kind, payload 42, at full capacity. -/
def mC6 : Manager Nat :=
  { entities := [⟨0, [false], true⟩], capacity := 1, size := 0, sizeNext := 1,
    store := [[42]] }

/-! ## Claims -/

/-- Claim C1: for every entity table with pending count `n ≥ 1`, `Refresh()`
partitions in place: afterwards every position below `EntityCount()` holds an
alive record, every position in `[EntityCount(), n)` holds a dead record, the
table after is a whole-record permutation of the table before (so the
multiset of live records is preserved), and `EntityCount()` equals the number
of records that were alive in the pending range before the call. -/
theorem Refresh_partitions_alive_to_left (m : Manager V)
    (h1 : 1 ≤ m.sizeNext) (h2 : m.sizeNext ≤ m.entities.length) :
    (∀ p, p < Manager.GetEntityCount (Manager.Refresh m) →
      ((Manager.Refresh m).entities.getD p default).alive = true) ∧
    (∀ p, Manager.GetEntityCount (Manager.Refresh m) ≤ p → p < m.sizeNext →
      ((Manager.Refresh m).entities.getD p default).alive = false) ∧
    ((Manager.Refresh m).entities).Perm m.entities ∧
    ((Manager.Refresh m).entities.filter fun e => e.alive).Perm
      (m.entities.filter fun e => e.alive) ∧
    Manager.GetEntityCount (Manager.Refresh m) =
      (m.entities.take m.sizeNext).countP fun e => e.alive := by
  obtain ⟨rPerm, rAlive, rDead, rFilter, rCount, _, _, _, _⟩ := Refresh_spec m h1 h2
  exact ⟨rAlive, rDead, rPerm, rFilter, rCount⟩

/-- Witness for C1 at a concrete two-record table (dead record first). -/
theorem Refresh_partitions_alive_to_left_witness :
    ((Manager.Refresh mC1).entities.getD 0 default).alive = true ∧
    Manager.GetEntityCount (Manager.Refresh mC1) = 1 := by
  obtain ⟨ha, hd, hp, hf, hc⟩ := Refresh_partitions_alive_to_left mC1 (by decide) (by decide)
  refine ⟨ha 0 (by rw [hc]; decide), ?_⟩
  rw [hc]
  decide

/-- Claim C2 counterexample: with two kinds and the signature `[0, 1]`
(declared order `K1 = 0`, `K2 = 1`), the iteration forwards the component
values in the order `[20, 10]` — kind 1 first — not in the declared kind
order `[10, 20]`. `Rename`'s fold prepends, so the pack is reversed. -/
theorem ForEntitiesMatching_declared_order_counterexample :
    Manager.ForEntitiesMatchingCalls 2 mC2 [0, 1] = [(0, [20, 10])] ∧
    Manager.ForEntitiesMatchingCalls 2 mC2 [0, 1] ≠ [(0, [10, 20])] := by
  decide

/-- Claim C2 (amended): for every live handle that matches the signature, the
iteration invokes the callback with the handle followed by the components of
the signature's declared kind list in REVERSE declared order (the last
declared kind's component first). -/
theorem ForEntitiesMatching_reversed_order (nc : Nat) (m : Manager V) (sig : List Nat) (i : Nat)
    (hi : i < m.size) (hm : Manager.MatchesSignature nc m sig i = true) :
    (i, sig.reverse.map fun k =>
      componentStorageGetComponent m.store k (Manager.GetEntity m i).dataIndex) ∈
      Manager.ForEntitiesMatchingCalls nc m sig := by
  rw [Manager.ForEntitiesMatchingCalls, List.mem_filterMap]
  refine ⟨i, List.mem_range.mpr hi, ?_⟩
  rw [if_pos hm, Manager.ExpandSignatureCallArgs, Manager.ExpandCallHelperArgs,
    renameFold_eq_reverse]

/-- Witness for the amended C2 at a concrete matching entity. -/
theorem ForEntitiesMatching_reversed_order_witness :
    (0, [0, 1].reverse.map fun k =>
      componentStorageGetComponent mC2.store k (Manager.GetEntity mC2 0).dataIndex) ∈
      Manager.ForEntitiesMatchingCalls 2 mC2 [0, 1] :=
  ForEntitiesMatching_reversed_order 2 mC2 [0, 1] 0 (by decide) (by decide)

/-- Claim C3 counterexample: create one entity, refresh (live count becomes
1), then refresh again with no `CreateIndex` in between. The claim predicts
the second refresh drops the live count to 0; in fact the pending count after
the first refresh equals the live count (1), so the second refresh keeps the
entity and `EntityCount()` stays 1. -/
theorem Refresh_generational_counterexample :
    (Manager.Refresh (Manager.Refresh (Manager.CreateIndex 1 (managerInit Nat 1)).2)).size = 1 ∧
    ¬ (Manager.Refresh (Manager.Refresh
        (Manager.CreateIndex 1 (managerInit Nat 1)).2)).size = 0 := by
  obtain ⟨_, rAlive, _, _, rCount, rEq, _, _, _⟩ :=
    Refresh_spec (Manager.CreateIndex 1 (managerInit Nat 1)).2 (by decide) (by decide)
  have hsize1 : (Manager.Refresh (Manager.CreateIndex 1 (managerInit Nat 1)).2).size = 1 := by
    rw [rCount]
    decide
  have halive2 : ∀ j,
      j < (Manager.Refresh (Manager.CreateIndex 1 (managerInit Nat 1)).2).sizeNext →
      (((Manager.Refresh (Manager.CreateIndex 1 (managerInit Nat 1)).2).entities.getD j
        default).alive = true) := by
    intro j hj
    exact rAlive j (by omega)
  obtain ⟨heq, _⟩ := Refresh_of_compacted
    (Manager.Refresh (Manager.CreateIndex 1 (managerInit Nat 1)).2) rEq halive2
  rw [heq, hsize1]
  exact ⟨rfl, by omega⟩

/-- Claim C3 (amended): `Refresh()` sets the live count to 0 exactly when the
pending count `m_sizeNext` is 0 — that is, when no `CreateIndex` has happened
since construction or `Clear` (or since a refresh that left no live
entities); the entity table is left untouched in that case. Live entities
that survived an earlier refresh keep the pending count positive and are not
discarded. -/
theorem Refresh_zero_pending (m : Manager V) (h : m.sizeNext = 0) :
    (Manager.Refresh m).size = 0 ∧ (Manager.Refresh m).sizeNext = 0 ∧
    (Manager.Refresh m).entities = m.entities := by
  rw [Manager.Refresh, if_pos h]
  exact ⟨rfl, h, rfl⟩

/-- Witness for the amended C3 on a freshly constructed manager. -/
theorem Refresh_zero_pending_witness :
    (Manager.Refresh (managerInit Nat 1)).size = 0 ∧
    (Manager.Refresh (managerInit Nat 1)).sizeNext = 0 ∧
    (Manager.Refresh (managerInit Nat 1)).entities = (managerInit Nat 1).entities :=
  Refresh_zero_pending (managerInit Nat 1) (by decide)

/-- Claim C4: starting from a freshly constructed manager, `n` `CreateIndex`
calls with no `Kill` followed by one `Refresh()` make `EntityCount()` return
exactly `n`. -/
theorem EntityCount_after_creations (V : Type) [Inhabited V] (nc n : Nat) :
    Manager.GetEntityCount (Manager.Refresh (createN V nc n)) = n := by
  obtain ⟨i1, i2, i3, i4⟩ := createN_invariant V nc n
  rcases Nat.eq_zero_or_pos n with h0 | hpos
  · subst h0
    rw [Manager.GetEntityCount, Manager.Refresh, if_pos i1]
  · obtain ⟨_, _, _, _, rCount, _, _, _, _⟩ := Refresh_spec (createN V nc n) (by omega) (by omega)
    rw [Manager.GetEntityCount, rCount, i1]
    exact countP_take_eq_of_partition _ n n (le_refl n) (by omega) i4
      (fun j hj1 hj2 => absurd hj2 (by omega))

/-- Witness for C4 at three concrete creations. -/
theorem EntityCount_after_creations_witness :
    Manager.GetEntityCount (Manager.Refresh (createN Nat 1 3)) = 3 :=
  EntityCount_after_creations Nat 1 3

/-- Claim C5: `MatchesSignature<S>(h)`, computed as
`(signatureBitset & entityBitset) == signatureBitset`, is true iff the entity
has every component kind in the signature's declared kind list. -/
theorem MatchesSignature_superset_test (nc : Nat) (m : Manager V) (sig : List Nat) (i : Nat)
    (hsig : ∀ k ∈ sig, k < nc)
    (hmask : (Manager.GetEntity m i).bitset.length = nc) :
    (Manager.MatchesSignature nc m sig i = true ↔
      ∀ k ∈ sig, Manager.HasComponent m k i = true) := by
  rw [Manager.MatchesSignature, beq_iff_eq]
  have hlen1 : (initSignatureBitset nc sig).length = nc := initSignatureBitset_length nc sig
  have hlenA : (bitsetAnd (initSignatureBitset nc sig)
      (Manager.GetEntity m i).bitset).length = nc := by
    rw [bitsetAnd, List.length_zipWith, hlen1, hmask]
    simp
  constructor
  · intro h k hk
    have hknc := hsig k hk
    have hk1 : k < (bitsetAnd (initSignatureBitset nc sig)
        (Manager.GetEntity m i).bitset).length := by omega
    have hk2 : k < (initSignatureBitset nc sig).length := by omega
    have hk3 : k < (Manager.GetEntity m i).bitset.length := by omega
    have hval : (bitsetAnd (initSignatureBitset nc sig)
          (Manager.GetEntity m i).bitset).getD k false =
        (initSignatureBitset nc sig).getD k false := by
      rw [h]
    rw [getD_eq_getElem _ _ _ hk1, getD_eq_getElem _ _ _ hk2] at hval
    simp only [bitsetAnd, List.getElem_zipWith] at hval
    have hsigk : (initSignatureBitset nc sig)[k] = true := by
      rw [← getD_eq_getElem _ _ false hk2, initSignatureBitset_getD nc sig hsig k]
      simp [hk]
    rw [hsigk] at hval
    simp at hval
    rw [Manager.HasComponent, getD_eq_getElem _ _ false hk3]
    exact hval
  · intro h
    apply List.ext_getElem (by omega)
    intro j h1 h2
    simp only [bitsetAnd, List.getElem_zipWith]
    by_cases hmem : j ∈ sig
    · have hsigj : (initSignatureBitset nc sig)[j] = true := by
        rw [← getD_eq_getElem _ _ false h2, initSignatureBitset_getD nc sig hsig j]
        simp [hmem]
      have hcomp := h j hmem
      rw [Manager.HasComponent] at hcomp
      have hj3 : j < (Manager.GetEntity m i).bitset.length := by omega
      rw [getD_eq_getElem _ _ false hj3] at hcomp
      rw [hsigj, hcomp]
      rfl
    · have hsigj : (initSignatureBitset nc sig)[j] = false := by
        rw [← getD_eq_getElem _ _ false h2, initSignatureBitset_getD nc sig hsig j]
        simp [hmem]
      rw [hsigj]
      simp

/-- Witness for C5 at a concrete entity owning both kinds of the signature. -/
theorem MatchesSignature_superset_test_witness :
    Manager.MatchesSignature 2 mC2 [0, 1] 0 = true ↔
      ∀ k ∈ [0, 1], Manager.HasComponent mC2 k 0 = true :=
  MatchesSignature_superset_test 2 mC2 [0, 1] 0 (by decide) (by decide)

/-- Claim C6: for a declared kind and a handle below the pending count,
`AddComponent` then `HasComponent` yields true, `DeleteComponent` then
`HasComponent` yields false, and neither call changes `EntityCount()`. -/
theorem AddComponent_DeleteComponent_HasComponent (nc : Nat) (m : Manager V) (k i : Nat)
    (v : V) (hk : k < nc) (hi : i < m.sizeNext) (hsn : m.sizeNext ≤ m.entities.length)
    (hmask : (Manager.GetEntity m i).bitset.length = nc) :
    Manager.HasComponent (Manager.AddComponent m k i v) k i = true ∧
    Manager.HasComponent (Manager.DeleteComponent m k i) k i = false ∧
    Manager.GetEntityCount (Manager.AddComponent m k i v) = Manager.GetEntityCount m ∧
    Manager.GetEntityCount (Manager.DeleteComponent m k i) = Manager.GetEntityCount m := by
  have hilen : i < m.entities.length := by omega
  have hklen : k < (Manager.GetEntity m i).bitset.length := by omega
  refine ⟨?_, ?_, rfl, rfl⟩
  · rw [Manager.HasComponent, Manager.AddComponent, Manager.GetEntity]
    dsimp only
    rw [getD_set_self _ _ _ _ hilen]
    dsimp only
    rw [getD_set_self _ _ _ _ hklen]
  · rw [Manager.HasComponent, Manager.DeleteComponent, Manager.GetEntity]
    dsimp only
    rw [getD_set_self _ _ _ _ hilen]
    dsimp only
    rw [getD_set_self _ _ _ _ hklen]

/-- Witness for C6 at a concrete one-kind manager. -/
theorem AddComponent_DeleteComponent_HasComponent_witness :
    Manager.HasComponent (Manager.AddComponent mC6 0 0 7) 0 0 = true ∧
    Manager.HasComponent (Manager.DeleteComponent mC6 0 0) 0 0 = false ∧
    Manager.GetEntityCount (Manager.AddComponent mC6 0 0 7) = Manager.GetEntityCount mC6 ∧
    Manager.GetEntityCount (Manager.DeleteComponent mC6 0 0) = Manager.GetEntityCount mC6 :=
  AddComponent_DeleteComponent_HasComponent 1 mC6 0 0 7 (by decide) (by decide) (by decide)
    (by decide)

/-- Claim C7: capacity starts at the fixed default 100; a `CreateIndex` call
that finds the next free position would not fit (pending count at capacity)
grows capacity to exactly `(oldCapacity + 10) * 2`, synchronously resizes
every per-kind component vector to the same new capacity, never shrinks, and
preserves the component value stored at every slot of every entity created
before the growth. -/
theorem growth_policy (nc : Nat) (m : Manager V) (k i : Nat)
    (hlen : m.entities.length = m.capacity)
    (hsn : m.sizeNext ≤ m.capacity)
    (hst : ∀ l ∈ m.store, l.length = m.capacity)
    (hi : i < m.sizeNext)
    (hdi : (Manager.GetEntity m i).dataIndex < m.capacity)
    (hgrow : m.capacity ≤ m.sizeNext) :
    (managerInit V nc).capacity = DEFAULT_ENTITY_CAPACITY ∧
    (Manager.CreateIndex nc m).2.capacity = (m.capacity + 10) * 2 ∧
    m.capacity < (Manager.CreateIndex nc m).2.capacity ∧
    (∀ l ∈ (Manager.CreateIndex nc m).2.store, l.length = (m.capacity + 10) * 2) ∧
    Manager.GetComponent (Manager.CreateIndex nc m).2 k i = Manager.GetComponent m k i := by
  obtain ⟨c1, c2, c3, c4, c5, c6, c7, c8, c9⟩ := CreateIndex_spec nc m hlen hsn
  have hgrown : Manager.GrowIfNeeded nc m = Manager.GrowTo nc m ((m.capacity + 10) * 2) := by
    rw [Manager.GrowIfNeeded, if_neg (by omega)]
  have hcap : (Manager.CreateIndex nc m).2.capacity = (m.capacity + 10) * 2 := by
    have h2 : (Manager.CreateIndex nc m).2.capacity = (Manager.GrowIfNeeded nc m).capacity := rfl
    rw [h2, hgrown]
    rfl
  refine ⟨rfl, hcap, by omega, ?_, ?_⟩
  · intro l hl
    have hstore : (Manager.CreateIndex nc m).2.store = (Manager.GrowIfNeeded nc m).store := rfl
    rw [hstore, hgrown, Manager.GrowTo] at hl
    dsimp only at hl
    obtain ⟨l0, hl0, rfl⟩ := List.mem_map.mp hl
    exact listResize_length l0 _
  · rw [Manager.GetComponent, Manager.GetComponent]
    have hGE : Manager.GetEntity (Manager.CreateIndex nc m).2 i = Manager.GetEntity m i := by
      rw [Manager.GetEntity, Manager.GetEntity]
      exact c8 i hi
    rw [hGE]
    have hstores : (Manager.CreateIndex nc m).2.store = (Manager.GrowIfNeeded nc m).store := rfl
    rw [hstores, hgrown]
    exact GrowTo_store_get nc m _ k _ hst hdi (by omega)

/-- Witness for C7 at a concrete one-slot manager at full capacity. -/
theorem growth_policy_witness :
    (managerInit Nat 1).capacity = DEFAULT_ENTITY_CAPACITY ∧
    (Manager.CreateIndex 1 mC6).2.capacity = (mC6.capacity + 10) * 2 ∧
    mC6.capacity < (Manager.CreateIndex 1 mC6).2.capacity ∧
    (∀ l ∈ (Manager.CreateIndex 1 mC6).2.store, l.length = (mC6.capacity + 10) * 2) ∧
    Manager.GetComponent (Manager.CreateIndex 1 mC6).2 0 0 = Manager.GetComponent mC6 0 0 :=
  growth_policy 1 mC6 0 0 (by decide) (by decide) (by decide) (by decide) (by decide)
    (by decide)

/-- Claim C8: after `Clear()` the live count is 0, the pending count is 0,
and every position in `[0, capacity)` holds a dead record with a cleared
mask. -/
theorem Clear_resets (m : Manager V) (hlen : m.entities.length = m.capacity) :
    Manager.GetEntityCount (Manager.Clear m) = 0 ∧
    (Manager.Clear m).sizeNext = 0 ∧
    (∀ p, p < m.capacity →
      ((Manager.Clear m).entities.getD p default).alive = false ∧
      ∀ b ∈ ((Manager.Clear m).entities.getD p default).bitset, b = false) := by
  refine ⟨rfl, rfl, ?_⟩
  intro p hp
  rw [Clear_getD m p (by omega), if_pos hp]
  refine ⟨rfl, ?_⟩
  intro b hb
  obtain ⟨x, hx, hxb⟩ := List.mem_map.mp hb
  exact hxb.symm

/-- Witness for C8 at a concrete manager. -/
theorem Clear_resets_witness :
    Manager.GetEntityCount (Manager.Clear mC6) = 0 ∧
    ((Manager.Clear mC6).entities.getD 0 default).alive = false := by
  obtain ⟨h1, h2, h3⟩ := Clear_resets mC6 (by decide)
  exact ⟨h1, (h3 0 (by decide)).1⟩

/-- Claim C9: `Refresh` is idempotent — refreshing twice yields exactly the
state of refreshing once (same entity table, live count and pending count),
and the second call performs no swaps. -/
theorem Refresh_idempotent (m : Manager V) :
    Manager.Refresh (Manager.Refresh m) = Manager.Refresh m ∧
    Manager.RefreshSwapCount (Manager.Refresh m) = 0 := by
  by_cases h0 : m.sizeNext = 0
  · have hr : Manager.Refresh m = { m with size := 0 } := by
      rw [Manager.Refresh, if_pos h0]
    refine Refresh_of_compacted (Manager.Refresh m) ?_ ?_
    · rw [hr]
      dsimp only
      omega
    · rw [hr]
      dsimp only
      intro j hj
      exact absurd hj (by omega)
  · obtain ⟨hEnt, hSize, hSizeNext⟩ := Refresh_size_eq_sizeNext m h0
    obtain ⟨hPerm, hLen, hUnL, hUnR, hKge, hKle, hAlive, hDead⟩ :=
      arrangeLoop_spec m.entities 0 (m.sizeNext - 1) 0
        (arrangeLoop m.entities 0 (m.sizeNext - 1) 0).1
        (arrangeLoop m.entities 0 (m.sizeNext - 1) 0).2.1
        (arrangeLoop m.entities 0 (m.sizeNext - 1) 0).2.2
        rfl (fun j hj => absurd hj (by omega)) (by omega)
    refine Refresh_of_compacted (Manager.Refresh m) ?_ ?_
    · rw [hSize, hSizeNext]
    · intro j hj
      rw [hSizeNext] at hj
      rw [hEnt]
      exact hAlive j hj

/-- Witness for C9 at a concrete two-record table. -/
theorem Refresh_idempotent_witness :
    Manager.Refresh (Manager.Refresh mC1) = Manager.Refresh mC1 ∧
    Manager.RefreshSwapCount (Manager.Refresh mC1) = 0 :=
  Refresh_idempotent mC1

/-- Claim C10: in every reachable manager state, every record at a position
between the pending count and the capacity is dead, and consequently the
record `CreateIndex` activates (the one `assert(!IsAlive(freeIndex))` checks
after `GrowIfNeeded`) is always dead. -/
theorem reachable_dead_beyond_pending (nc : Nat) (m : Manager V) (h : Reachable V nc m) :
    (∀ p, m.sizeNext ≤ p → p < m.capacity → (m.entities.getD p default).alive = false) ∧
    Manager.IsAlive (Manager.GrowIfNeeded nc m) (Manager.GrowIfNeeded nc m).sizeNext = false := by
  obtain ⟨i1, i2, i3⟩ := reachable_inv nc m h
  obtain ⟨g1, g2, g3, g4, g5, g6, g7⟩ := GrowIfNeeded_spec nc m i1 i2
  refine ⟨i3, ?_⟩
  rw [Manager.IsAlive, Manager.GetEntity, g1]
  rcases Nat.lt_or_ge m.sizeNext m.capacity with hl | hg
  · rw [g6 m.sizeNext hl]
    exact i3 m.sizeNext (le_refl _) hl
  · exact g7 m.sizeNext hg

/-- Witness for C10 on the freshly constructed manager (reachable by
construction). -/
theorem reachable_dead_beyond_pending_witness :
    ((managerInit Nat 1).entities.getD 50 default).alive = false ∧
    Manager.IsAlive (Manager.GrowIfNeeded 1 (managerInit Nat 1))
      (Manager.GrowIfNeeded 1 (managerInit Nat 1)).sizeNext = false := by
  obtain ⟨h1, h2⟩ := reachable_dead_beyond_pending 1 (managerInit Nat 1) Reachable.init
  exact ⟨h1 50 (by decide) (by decide), h2⟩

end SgEcs
